import Mathlib

/-!
Verification of the BehaviorTree5 specification.

The repository ships type declarations (`src/src/types.d.ts`,
`src/src/index.d.ts`, `src/src/BehaviorTreeCreator.d.ts`); the execution
engine itself is not part of the sources, so — following the specification,
which reconstructs the engine at design level — the engine below is modelled
from the specification text.  The status constants are taken directly from
`src/src/types.d.ts`.
-/

namespace BTree5

/-- The three-valued outcome domain all nodes report (`TREE_OUTCOME`). -/
inductive Status where
  | success
  | fail
  | running
deriving DecidableEq, Repr

/-- `export const SUCCESS = 1;` from src/src/types.d.ts line 4. -/
def SUCCESS : Nat := 1

/-- `export const FAIL = 2;` from src/src/types.d.ts line 5. -/
def FAIL : Nat := 2

/-- `export const RUNNING = 3;` from src/src/types.d.ts line 6. -/
def RUNNING : Nat := 3

/-- The numeric code of a status, per the constants of types.d.ts. -/
def Status.code : Status → Nat
  | .success => SUCCESS
  | .fail => FAIL
  | .running => RUNNING

/-- Values stored in a blackboard (booleans, strings, numbers). -/
inductive Val where
  | b (x : Bool)
  | s (x : String)
  | n (x : Int)
deriving DecidableEq, Repr

/-- A blackboard: a key-value store; an absent key reads as `none` (nil). -/
def BB : Type := String → Option Val

/-- The `value` parameter of a BlackboardQuery: the special literals
`"set"`, `"unset"`, `"true"`, `"false"`, or any other literal. -/
inductive VP where
  | set
  | unset
  | vtrue
  | vfalse
  | lit (v : Val)
deriving DecidableEq, Repr

/-- Lua-style boolean coercion of a stored value: nil (absent) and `false`
are falsy, everything else is truthy. -/
def truthy : Option Val → Bool
  | none => false
  | some (.b false) => false
  | some _ => true

/-- Errors raised during a BlackboardQuery evaluation. -/
inductive Err where
  | missingBlackboard
  | unknownBoard
deriving DecidableEq, Repr

/-- Modelled from the spec: `NodeSpec` — the declarative node model implied by
`index.d.ts`; the engine implementation is absent from the sources, so the
node kinds and their parameters follow spec sections 3 and 4.3.  `σ` is the
subject type; Task hooks are the stored closures `onStart`/`onRun`/`onFinish`,
each Task additionally carries a numeric identifier used only to record hook
invocations in the evaluation trace.  (`Random` and `Tree` nodes, which no
claim concerns, are not modelled.) -/
inductive NodeSpec (σ : Type) where
  | task (id : Nat) (onStart : σ → σ) (onRun : σ → Status × σ)
      (onFinish : σ → Status → σ)
  | sequence (children : List (NodeSpec σ))
  | selector (children : List (NodeSpec σ))
  | whileN (cond act : NodeSpec σ)
  | succeedN (child : NodeSpec σ)
  | failN (child : NodeSpec σ)
  | invertN (child : NodeSpec σ)
  | repeatN (count : Option Int) (breakonfail : Bool) (child : NodeSpec σ)
  | query (board key : String) (value : VP)

/-- Modelled from the spec: the resumption cursor of a TreeInstance, spec
section 3.  The spec stores a flat index; here the same information is kept
as a path through the tree (which node is suspended, and, for a Repeat, the
remaining success count that the engine must retain across ticks). -/
inductive RS where
  | seqAt (i : Nat) (child : RS)
  | selAt (i : Nat) (child : RS)
  | whileAct (child : RS)
  | whileFresh
  | decor (child : RS)
  | rep (remaining : Option Nat) (child : Option RS)
  | taskR
deriving Repr

/-- A hook-invocation event, used to trace which node hooks an operation
touches. -/
inductive Ev where
  | start (id : Nat)
  | run (id : Nat)
  | finish (id : Nat)
deriving DecidableEq, Repr

/-- The task identifier an event belongs to. -/
def Ev.id : Ev → Nat
  | .start i => i
  | .run i => i
  | .finish i => i

/-- The outcome of one tick of a node: status, new cursor fragment (`some`
exactly when suspended), updated subject, and the trace of hook events. -/
structure Out (σ : Type) where
  st : Status
  rs : Option RS
  subj : σ
  tr : List Ev

/-- Result of a tick: either a blackboard error or an outcome. -/
def Res (σ : Type) : Type := Except Err (Out σ)

/-- Modelled from the spec: the Blackboard Resolver, spec section 4.4.
`getBB` extracts the subject's own `Blackboard` field (absent gives
`MissingBlackboardError`); any other selector is looked up in the
shared-blackboard registry (`UnknownBoardError` if not registered). -/
def resolve {σ : Type} (getBB : σ → Option BB) (shared : String → Option BB)
    (subj : σ) (board : String) : Except Err BB :=
  if board = "Entity" then
    match getBB subj with
    | none => .error .missingBlackboard
    | some bb => .ok bb
  else
    match shared board with
    | none => .error .unknownBoard
    | some bb => .ok bb

/-- Modelled from the spec: the BlackboardQuery comparison rule, spec
section 4.3: `"set"` succeeds iff the key is present, `"unset"` iff absent,
`"true"`/`"false"` iff the boolean-coerced value matches, any other literal
iff strictly equal to the stored value. -/
def queryStatus (bb : BB) (key : String) (v : VP) : Status :=
  let stored := bb key
  let hit : Bool :=
    match v with
    | .set => stored.isSome
    | .unset => stored.isNone
    | .vtrue => truthy stored
    | .vfalse => !truthy stored
    | .lit x => decide (stored = some x)
  if hit then .success else .fail

/-- One tick of a Task body: `onRun`, then `onFinish` exactly on a terminal
result; `pre` is the trace prefix (`onStart` when entered fresh). -/
def taskTick {σ : Type} (id : Nat) (onRun : σ → Status × σ)
    (onFinish : σ → Status → σ) (s : σ) (pre : List Ev) : Out σ :=
  match onRun s with
  | (.running, s1) => ⟨.running, some .taskR, s1, pre ++ [Ev.run id]⟩
  | (.success, s1) =>
      ⟨.success, none, onFinish s1 .success, pre ++ [Ev.run id, Ev.finish id]⟩
  | (.fail, s1) =>
      ⟨.fail, none, onFinish s1 .fail, pre ++ [Ev.run id, Ev.finish id]⟩

/-- Bump a sequence cursor by one child position. -/
def shiftSeq : Option RS → Option RS
  | some (.seqAt j r) => some (.seqAt (j + 1) r)
  | x => x

/-- Bump a selector cursor by one child position. -/
def shiftSel : Option RS → Option RS
  | some (.selAt j r) => some (.selAt (j + 1) r)
  | x => x

/-- Combine the first child's tick with the rest of a Sequence (spec 4.3:
FAIL short-circuits, RUNNING suspends at that child, SUCCESS continues). -/
def stepSeq {σ : Type} (r : Res σ) (cont : σ → Res σ) : Res σ :=
  match r with
  | .error e => .error e
  | .ok o =>
    match o.st with
    | .fail => .ok ⟨.fail, none, o.subj, o.tr⟩
    | .running => .ok ⟨.running, some (.seqAt 0 (o.rs.getD .taskR)), o.subj, o.tr⟩
    | .success =>
      match cont o.subj with
      | .error e => .error e
      | .ok o2 => .ok ⟨o2.st, shiftSeq o2.rs, o2.subj, o.tr ++ o2.tr⟩

/-- Combine the first child's tick with the rest of a Selector (spec 4.3:
SUCCESS short-circuits, RUNNING suspends at that child, FAIL continues). -/
def stepSel {σ : Type} (r : Res σ) (cont : σ → Res σ) : Res σ :=
  match r with
  | .error e => .error e
  | .ok o =>
    match o.st with
    | .success => .ok ⟨.success, none, o.subj, o.tr⟩
    | .running => .ok ⟨.running, some (.selAt 0 (o.rs.getD .taskR)), o.subj, o.tr⟩
    | .fail =>
      match cont o.subj with
      | .error e => .error e
      | .ok o2 => .ok ⟨o2.st, shiftSel o2.rs, o2.subj, o.tr ++ o2.tr⟩

/-- Fold the action child's result into the While (spec 4.3: action RUNNING
suspends at the action; action SUCCESS makes the While succeed in that single
pass; action FAIL re-enters from scratch next tick). -/
def stepAct {σ : Type} (pre : List Ev) (r : Res σ) : Res σ :=
  match r with
  | .error e => .error e
  | .ok o =>
    match o.st with
    | .running => .ok ⟨.running, some (.whileAct (o.rs.getD .taskR)), o.subj, pre ++ o.tr⟩
    | .success => .ok ⟨.success, none, o.subj, pre ++ o.tr⟩
    | .fail => .ok ⟨.running, some .whileFresh, o.subj, pre ++ o.tr⟩

/-- Fold the child's result into a Repeat (spec 4.3: the count is decremented
only on SUCCESS; FAIL with `breakOnFail` fails immediately, otherwise the
same iteration is re-attempted next tick; RUNNING suspends the iteration). -/
def stepRep {σ : Type} (bof : Bool) (rem : Option Nat) (r : Res σ) : Res σ :=
  match r with
  | .error e => .error e
  | .ok o =>
    match o.st with
    | .running => .ok ⟨.running, some (.rep rem (some (o.rs.getD .taskR))), o.subj, o.tr⟩
    | .fail =>
      if bof then .ok ⟨.fail, none, o.subj, o.tr⟩
      else .ok ⟨.running, some (.rep rem none), o.subj, o.tr⟩
    | .success =>
      match rem with
      | none => .ok ⟨.running, some (.rep none none), o.subj, o.tr⟩
      | some 0 => .ok ⟨.success, none, o.subj, o.tr⟩
      | some (k + 1) =>
        if k = 0 then .ok ⟨.success, none, o.subj, o.tr⟩
        else .ok ⟨.running, some (.rep (some k) none), o.subj, o.tr⟩

/-- Coerce a child's terminal result to a fixed status (Succeed / Fail
decorators); RUNNING still propagates. -/
def stepCoerce {σ : Type} (t : Status) (r : Res σ) : Res σ :=
  match r with
  | .error e => .error e
  | .ok o =>
    match o.st with
    | .running => .ok ⟨.running, some (.decor (o.rs.getD .taskR)), o.subj, o.tr⟩
    | _ => .ok ⟨t, none, o.subj, o.tr⟩

/-- Invert decorator: swap SUCCESS and FAIL, pass RUNNING through. -/
def stepInv {σ : Type} (r : Res σ) : Res σ :=
  match r with
  | .error e => .error e
  | .ok o =>
    match o.st with
    | .running => .ok ⟨.running, some (.decor (o.rs.getD .taskR)), o.subj, o.tr⟩
    | .success => .ok ⟨.fail, none, o.subj, o.tr⟩
    | .fail => .ok ⟨.success, none, o.subj, o.tr⟩

/-- The decorator cursor's child fragment (idle when the state is not a
decorator suspension). -/
def dstate : Option RS → Option RS
  | some (.decor r) => some r
  | _ => none

/-- Whether the cursor suspends at this Task itself. -/
def cursorTask : Option RS → Bool
  | some .taskR => true
  | _ => false

/-- The child position and fragment of a sequence cursor. -/
def seqState : Option RS → Option (Nat × RS)
  | some (.seqAt i r) => some (i, r)
  | _ => none

/-- The child position and fragment of a selector cursor. -/
def selState : Option RS → Option (Nat × RS)
  | some (.selAt i r) => some (i, r)
  | _ => none

/-- The action fragment of a While cursor suspended at its action child. -/
def actState : Option RS → Option RS
  | some (.whileAct r) => some r
  | _ => none

/-- The remaining budget and child fragment of a Repeat cursor. -/
def repState : Option RS → Option (Option Nat × Option RS)
  | some (.rep rem cst) => some (rem, cst)
  | _ => none

/-- Modelled from the spec: a Repeat's initial remaining-success budget,
spec section 3: `count` absent or negative means repeat indefinitely. -/
def initRem : Option Int → Option Nat
  | none => none
  | some k => if k < 0 then none else some k.toNat

/-- Modelled from the spec: one tick of a node, spec sections 4.3 and the
global resumption rule of spec line 72.  The second argument is the cursor
fragment for this subtree: `none` (or a fragment of the wrong shape,
defensively) starts a fresh evaluation; `some` resumes at the remembered
node, and the node's new result is propagated upward through its ancestors
by the same per-kind rules. -/
def runNode {σ : Type} (getBB : σ → Option BB) (shared : String → Option BB) :
    NodeSpec σ → Option RS → σ → Res σ
  | .task id onStart onRun onFinish, st, s =>
      match cursorTask st with
      | true => .ok (taskTick id onRun onFinish s [])
      | false => .ok (taskTick id onRun onFinish (onStart s) [Ev.start id])
  | .sequence [], _, s => .ok ⟨.success, none, s, []⟩
  | .sequence (c :: rest), st, s =>
      match seqState st with
      | some (0, r) =>
          stepSeq (runNode getBB shared c (some r) s)
            (fun s' => runNode getBB shared (.sequence rest) none s')
      | some (i + 1, r) =>
          (match runNode getBB shared (.sequence rest) (some (.seqAt i r)) s with
           | .error e => .error e
           | .ok o => .ok ⟨o.st, shiftSeq o.rs, o.subj, o.tr⟩)
      | none =>
          stepSeq (runNode getBB shared c none s)
            (fun s' => runNode getBB shared (.sequence rest) none s')
  | .selector [], _, s => .ok ⟨.fail, none, s, []⟩
  | .selector (c :: rest), st, s =>
      match selState st with
      | some (0, r) =>
          stepSel (runNode getBB shared c (some r) s)
            (fun s' => runNode getBB shared (.selector rest) none s')
      | some (i + 1, r) =>
          (match runNode getBB shared (.selector rest) (some (.selAt i r)) s with
           | .error e => .error e
           | .ok o => .ok ⟨o.st, shiftSel o.rs, o.subj, o.tr⟩)
      | none =>
          stepSel (runNode getBB shared c none s)
            (fun s' => runNode getBB shared (.selector rest) none s')
  | .whileN cond act, st, s =>
      match actState st with
      | some r => stepAct [] (runNode getBB shared act (some r) s)
      | none =>
          (match runNode getBB shared cond none s with
           | .error e => .error e
           | .ok o =>
             match o.st with
             | .fail => .ok ⟨.fail, none, o.subj, o.tr⟩
             | _ => stepAct o.tr (runNode getBB shared act none o.subj))
  | .succeedN c, st, s => stepCoerce .success (runNode getBB shared c (dstate st) s)
  | .failN c, st, s => stepCoerce .fail (runNode getBB shared c (dstate st) s)
  | .invertN c, st, s => stepInv (runNode getBB shared c (dstate st) s)
  | .repeatN count bof c, st, s =>
      match repState st with
      | some (rem, cst) =>
          if rem = some 0 then .ok ⟨.success, none, s, []⟩
          else stepRep bof rem (runNode getBB shared c cst s)
      | none =>
          if initRem count = some 0 then .ok ⟨.success, none, s, []⟩
          else stepRep bof (initRem count) (runNode getBB shared c none s)
  | .query board key v, _, s =>
      match resolve getBB shared s board with
      | .error e => .error e
      | .ok bb => .ok ⟨queryStatus bb key v, none, s, []⟩

/-- The task identifiers occurring in a subtree (in evaluation order). -/
def idsOf {σ : Type} : NodeSpec σ → List Nat
  | .task i _ _ _ => [i]
  | .sequence [] => []
  | .sequence (c :: rest) => idsOf c ++ idsOf (.sequence rest)
  | .selector [] => []
  | .selector (c :: rest) => idsOf c ++ idsOf (.selector rest)
  | .whileN cond act => idsOf cond ++ idsOf act
  | .succeedN c => idsOf c
  | .failN c => idsOf c
  | .invertN c => idsOf c
  | .repeatN _ _ c => idsOf c
  | .query _ _ _ => []

/-- The trace of a tick result (empty on error: the aborted tick). -/
def traceOf {σ : Type} : Res σ → List Ev
  | .error _ => []
  | .ok o => o.tr

/-- Modelled from the spec: TreeInstance, spec section 3 — the mutable run
state: the shared compiled tree, a cursor (`none` = idle), and the last
subject reference (kept so `abort` can call the running Task's finish hook). -/
structure Inst (σ : Type) where
  tree : NodeSpec σ
  cursor : Option RS
  subject : Option σ

/-- Modelled from the spec: `run(subject, ...)`, spec section 4.3 — one tick
from the current cursor (from the root if idle); on a blackboard error the
error surfaces and the instance is left unchanged (cursor intact). -/
def Inst.runI {σ : Type} (getBB : σ → Option BB) (shared : String → Option BB)
    (t : Inst σ) (obj : σ) : Except Err (Status × List Ev) × Inst σ :=
  match runNode getBB shared t.tree t.cursor obj with
  | .error e => (.error e, t)
  | .ok o => (.ok (o.st, o.tr), ⟨t.tree, o.rs, some o.subj⟩)

/-- The Task the cursor addresses, if the suspended leaf is a Task: its
identifier and finish hook, found by descending the cursor path. -/
def activeTask {σ : Type} : NodeSpec σ → RS → Option (Nat × (σ → Status → σ))
  | .task i _ _ onFinish, .taskR => some (i, onFinish)
  | .sequence (c :: _), .seqAt 0 r => activeTask c r
  | .sequence (_ :: rest), .seqAt (i + 1) r => activeTask (.sequence rest) (.seqAt i r)
  | .selector (c :: _), .selAt 0 r => activeTask c r
  | .selector (_ :: rest), .selAt (i + 1) r => activeTask (.selector rest) (.selAt i r)
  | .whileN _ act, .whileAct r => activeTask act r
  | .succeedN c, .decor r => activeTask c r
  | .failN c, .decor r => activeTask c r
  | .invertN c, .decor r => activeTask c r
  | .repeatN _ _ c, .rep _ (some r) => activeTask c r
  | _, _ => none

/-- Modelled from the spec: `abort(...)`, spec section 4.5 — if the cursor
addresses an active Task, invoke that Task's finish hook (status FAIL by
convention) and reset the cursor to idle; if the cursor is idle, no-op.  The
returned trace records exactly the hooks invoked. -/
def Inst.abortI {σ : Type} (t : Inst σ) : Inst σ × List Ev :=
  match t.cursor with
  | none => (t, [])
  | some rs =>
    match activeTask t.tree rs with
    | some (i, onFinish) =>
        (⟨t.tree, none, t.subject.map (fun s => onFinish s .fail)⟩, [Ev.finish i])
    | none => (⟨t.tree, none, t.subject⟩, [])

/-- Modelled from the spec: `clone()`, spec sections 3 and 6 — shares the
immutable compiled tree, allocates a fresh idle cursor and subject. -/
def Inst.cloneI {σ : Type} (t : Inst σ) : Inst σ :=
  ⟨t.tree, none, none⟩

section TraceLemmas

variable {σ : Type}

lemma mem_tr_taskTick {id : Nat} {onRun : σ → Status × σ} {onFinish : σ → Status → σ}
    {s : σ} {pre : List Ev} {e : Ev} (h : e ∈ (taskTick id onRun onFinish s pre).tr) :
    e ∈ pre ∨ e.id = id := by
  have h' : e ∈ pre ∨ e = Ev.run id ∨ e = Ev.finish id := by
    unfold taskTick at h
    split at h <;> simp at h <;> tauto
  rcases h' with h' | h' | h' <;> simp [h', Ev.id]

lemma mem_traceOf_stepSeq {r : Res σ} {cont : σ → Res σ} {e : Ev}
    (h : e ∈ traceOf (stepSeq r cont)) :
    e ∈ traceOf r ∨ ∃ s', e ∈ traceOf (cont s') := by
  unfold stepSeq at h
  split at h
  · simp [traceOf] at h
  · rename_i o
    split at h
    · left; simpa [traceOf] using h
    · left; simpa [traceOf] using h
    · split at h
      · simp [traceOf] at h
      · rename_i o2 h2
        simp [traceOf] at h
        rcases h with h | h
        · left; simpa [traceOf] using h
        · right; exact ⟨o.subj, by simp [traceOf, h2, h]⟩

lemma mem_traceOf_stepSel {r : Res σ} {cont : σ → Res σ} {e : Ev}
    (h : e ∈ traceOf (stepSel r cont)) :
    e ∈ traceOf r ∨ ∃ s', e ∈ traceOf (cont s') := by
  unfold stepSel at h
  split at h
  · simp [traceOf] at h
  · rename_i o
    split at h
    · left; simpa [traceOf] using h
    · left; simpa [traceOf] using h
    · split at h
      · simp [traceOf] at h
      · rename_i o2 h2
        simp [traceOf] at h
        rcases h with h | h
        · left; simpa [traceOf] using h
        · right; exact ⟨o.subj, by simp [traceOf, h2, h]⟩

lemma mem_traceOf_stepAct {pre : List Ev} {r : Res σ} {e : Ev}
    (h : e ∈ traceOf (stepAct pre r)) :
    e ∈ pre ∨ e ∈ traceOf r := by
  unfold stepAct at h
  split at h
  · simp [traceOf] at h
  · split at h <;> simp [traceOf] at h ⊢ <;> tauto

lemma mem_traceOf_stepRep {bof : Bool} {rem : Option Nat} {r : Res σ} {e : Ev}
    (h : e ∈ traceOf (stepRep bof rem r)) : e ∈ traceOf r := by
  unfold stepRep at h
  split at h
  · simp [traceOf] at h
  · split at h <;> (try split at h) <;> (try split at h) <;>
      simp [traceOf] at h ⊢ <;> tauto

lemma mem_traceOf_stepCoerce {t : Status} {r : Res σ} {e : Ev}
    (h : e ∈ traceOf (stepCoerce t r)) : e ∈ traceOf r := by
  unfold stepCoerce at h
  split at h
  · simp [traceOf] at h
  · split at h <;> simp [traceOf] at h ⊢ <;> tauto

lemma mem_traceOf_stepInv {r : Res σ} {e : Ev}
    (h : e ∈ traceOf (stepInv r)) : e ∈ traceOf r := by
  unfold stepInv at h
  split at h
  · simp [traceOf] at h
  · split at h <;> simp [traceOf] at h ⊢ <;> tauto

end TraceLemmas


/-- Every hook event a tick produces belongs to a task inside the node
evaluated: an evaluation never touches hooks outside the subtree. -/
theorem runNode_trace_ids {σ : Type} (getBB : σ → Option BB) (shared : String → Option BB) :
    ∀ (n : NodeSpec σ) (st : Option RS) (s : σ) (e : Ev),
      e ∈ traceOf (runNode getBB shared n st s) → e.id ∈ idsOf n := by
  intro n st s
  induction n, st, s using runNode.induct getBB shared with
  | case1 id onStart onRun onFinish st s hst =>
    intro e he
    simp only [runNode, hst, traceOf] at he
    rcases mem_tr_taskTick he with h | h
    · simp at h
    · simp [idsOf, h]
  | case2 id onStart onRun onFinish st s hst =>
    intro e he
    simp only [runNode, hst, traceOf] at he
    rcases mem_tr_taskTick he with h | h
    · simp at h
      simp [idsOf, h, Ev.id]
    · simp [idsOf, h]
  | case3 st s =>
    intro e he
    simp [runNode, traceOf] at he
  | case4 c rest st s r hs ih2 ih1 =>
    intro e he
    simp only [runNode, hs] at he
    rcases mem_traceOf_stepSeq he with h | ⟨s', h⟩
    · simp only [idsOf, List.mem_append]
      exact Or.inl (ih2 e h)
    · simp only [idsOf, List.mem_append]
      exact Or.inr (ih1 s' e h)
  | case5 c rest st s i r hs err hx ih1 =>
    intro e he
    simp [runNode, hs, hx, traceOf] at he
  | case6 c rest st s i r hs o2 hx ih1 =>
    intro e he
    simp only [runNode, hs, hx, traceOf] at he
    simp only [idsOf, List.mem_append]
    exact Or.inr (ih1 e (by simp [hx, traceOf]; exact he))
  | case7 c rest st s hs ih2 ih1 =>
    intro e he
    simp only [runNode, hs] at he
    rcases mem_traceOf_stepSeq he with h | ⟨s', h⟩
    · simp only [idsOf, List.mem_append]
      exact Or.inl (ih2 e h)
    · simp only [idsOf, List.mem_append]
      exact Or.inr (ih1 s' e h)
  | case8 st s =>
    intro e he
    simp [runNode, traceOf] at he
  | case9 c rest st s r hs ih2 ih1 =>
    intro e he
    simp only [runNode, hs] at he
    rcases mem_traceOf_stepSel he with h | ⟨s', h⟩
    · simp only [idsOf, List.mem_append]
      exact Or.inl (ih2 e h)
    · simp only [idsOf, List.mem_append]
      exact Or.inr (ih1 s' e h)
  | case10 c rest st s i r hs err hx ih1 =>
    intro e he
    simp [runNode, hs, hx, traceOf] at he
  | case11 c rest st s i r hs o2 hx ih1 =>
    intro e he
    simp only [runNode, hs, hx, traceOf] at he
    simp only [idsOf, List.mem_append]
    exact Or.inr (ih1 e (by simp [hx, traceOf]; exact he))
  | case12 c rest st s hs ih2 ih1 =>
    intro e he
    simp only [runNode, hs] at he
    rcases mem_traceOf_stepSel he with h | ⟨s', h⟩
    · simp only [idsOf, List.mem_append]
      exact Or.inl (ih2 e h)
    · simp only [idsOf, List.mem_append]
      exact Or.inr (ih1 s' e h)
  | case13 cond act st s r hs ih1 =>
    intro e he
    simp only [runNode, hs] at he
    rcases mem_traceOf_stepAct he with h | h
    · simp at h
    · simp only [idsOf, List.mem_append]
      exact Or.inr (ih1 e h)
  | case14 cond act st s hs err hx ih1 =>
    intro e he
    simp [runNode, hs, hx, traceOf] at he
  | case15 cond act st s hs o2 hx hfail ih1 =>
    intro e he
    simp only [runNode, hs, hx, hfail, traceOf] at he
    simp only [idsOf, List.mem_append]
    exact Or.inl (ih1 e (by simp [hx, traceOf]; exact he))
  | case16 cond act st s hs o2 hx hnf ih2 ih1 =>
    intro e he
    simp only [runNode, hs, hx] at he
    rcases mem_traceOf_stepAct he with h | h
    · simp only [idsOf, List.mem_append]
      exact Or.inl (ih2 e (by simp [hx, traceOf]; exact h))
    · simp only [idsOf, List.mem_append]
      exact Or.inr (ih1 e h)
  | case17 c st s ih1 =>
    intro e he
    simp only [runNode] at he
    simpa [idsOf] using ih1 e (mem_traceOf_stepCoerce he)
  | case18 c st s ih1 =>
    intro e he
    simp only [runNode] at he
    simpa [idsOf] using ih1 e (mem_traceOf_stepCoerce he)
  | case19 c st s ih1 =>
    intro e he
    simp only [runNode] at he
    simpa [idsOf] using ih1 e (mem_traceOf_stepInv he)
  | case20 count bof c st s cst hs =>
    intro e he
    simp [runNode, hs, traceOf] at he
  | case21 count bof c st s rem cst hs hrem ih1 =>
    intro e he
    simp only [runNode, hs, if_neg hrem] at he
    simpa [idsOf] using ih1 e (mem_traceOf_stepRep he)
  | case22 count bof c st s hs hrem =>
    intro e he
    simp [runNode, hs, hrem, traceOf] at he
  | case23 count bof c st s hs hrem ih1 =>
    intro e he
    simp only [runNode, hs, if_neg hrem] at he
    simpa [idsOf] using ih1 e (mem_traceOf_stepRep he)
  | case24 board key v st s err hx =>
    intro e he
    simp [runNode, hx, traceOf] at he
  | case25 board key v st s bb hx =>
    intro e he
    simp [runNode, hx, traceOf] at he


section SeqResume

variable {σ : Type} (getBB : σ → Option BB) (shared : String → Option BB)

/-- Bump a sequence cursor by `k` child positions. -/
def shiftSeqBy (k : Nat) : Option RS → Option RS
  | some (.seqAt j r) => some (.seqAt (j + k) r)
  | x => x

/-- Re-index a tick result of a sequence suffix to the full child list. -/
def liftSeqRes (k : Nat) : Res σ → Res σ
  | .error e => .error e
  | .ok o => .ok ⟨o.st, shiftSeqBy k o.rs, o.subj, o.tr⟩

lemma shiftSeqBy_zero (x : Option RS) : shiftSeqBy 0 x = x := by
  cases x with
  | none => rfl
  | some r => cases r <;> simp [shiftSeqBy]

lemma liftSeqRes_zero (x : Res σ) : liftSeqRes 0 x = x := by
  cases x with
  | error e => rfl
  | ok o => simp [liftSeqRes, shiftSeqBy_zero]

lemma shiftSeq_shiftSeqBy (k : Nat) (x : Option RS) :
    shiftSeq (shiftSeqBy k x) = shiftSeqBy (k + 1) x := by
  cases x with
  | none => rfl
  | some r => cases r <;> simp [shiftSeqBy, shiftSeq, Nat.add_assoc]

lemma traceOf_liftSeqRes (k : Nat) (x : Res σ) :
    traceOf (liftSeqRes k x) = traceOf x := by
  cases x <;> rfl

/-- Resuming a Sequence whose cursor is at child `i` resumes exactly that
child and continues with the children after it, never touching children
before `i`. -/
lemma runNode_seq_resume (i : Nat) :
    ∀ (cs : List (NodeSpec σ)) (c : NodeSpec σ) (rest : List (NodeSpec σ)),
      cs.drop i = c :: rest → ∀ (r : RS) (s : σ),
      runNode getBB shared (.sequence cs) (some (.seqAt i r)) s =
        liftSeqRes i (stepSeq (runNode getBB shared c (some r) s)
          (fun s' => runNode getBB shared (.sequence rest) none s')) := by
  induction i with
  | zero =>
    intro cs c rest hdrop r s
    simp only [List.drop_zero] at hdrop
    subst hdrop
    simp only [runNode, seqState, liftSeqRes_zero]
  | succ i ih =>
    intro cs c rest hdrop r s
    cases cs with
    | nil => simp at hdrop
    | cons c0 cs' =>
      simp only [List.drop_succ_cons] at hdrop
      have := ih cs' c rest hdrop r s
      simp only [runNode, seqState, this]
      cases hx : stepSeq (runNode getBB shared c (some r) s)
          (fun s' => runNode getBB shared (.sequence rest) none s') with
      | error e => rfl
      | ok o => simp [liftSeqRes, shiftSeq_shiftSeqBy]

end SeqResume


/-- A scripted task for concrete instances: each tick pops the next status
from the subject (a list of statuses); hooks are recorded under `id`. -/
def scriptTask (id : Nat) : NodeSpec (List Status) :=
  .task id (fun s => s)
    (fun s =>
      match s with
      | [] => (.fail, [])
      | r :: rest => (r, rest))
    (fun s _ => s)

/-- No entity blackboard (for concrete instances). -/
def noBB : List Status → Option BB := fun _ => none

/-- An empty shared-blackboard registry (for concrete instances). -/
def noShared : String → Option BB := fun _ => none

/-- C1: when `run` is called with a non-idle cursor the engine does not
restart from the root: a Sequence whose cursor was at child `i` resumes
exactly that child and propagates its result by the per-kind rules — on
SUCCESS from child `i` it proceeds to the children after `i`, and every
hook event of the tick belongs to children `i..n`; under distinct task
identifiers, children before `i` are never re-evaluated that tick. -/
theorem claim1_resume_at_cursor {σ : Type} (getBB : σ → Option BB)
    (shared : String → Option BB) (cs : List (NodeSpec σ)) (i : Nat)
    (c : NodeSpec σ) (rest : List (NodeSpec σ)) (r : RS) (s : σ)
    (hdrop : cs.drop i = c :: rest) :
    (runNode getBB shared (.sequence cs) (some (.seqAt i r)) s =
      liftSeqRes i (stepSeq (runNode getBB shared c (some r) s)
        (fun s' => runNode getBB shared (.sequence rest) none s'))) ∧
    (∀ o, runNode getBB shared c (some r) s = .ok o → o.st = .success →
      runNode getBB shared (.sequence cs) (some (.seqAt i r)) s =
        liftSeqRes i
          (match runNode getBB shared (.sequence rest) none o.subj with
           | .error e => .error e
           | .ok o2 => .ok ⟨o2.st, shiftSeq o2.rs, o2.subj, o.tr ++ o2.tr⟩)) ∧
    (∀ e ∈ traceOf (runNode getBB shared (.sequence cs) (some (.seqAt i r)) s),
      e.id ∈ idsOf (NodeSpec.sequence (cs.drop i))) ∧
    ((∀ a ∈ idsOf (NodeSpec.sequence (cs.take i)),
        a ∉ idsOf (NodeSpec.sequence (cs.drop i))) →
      ∀ e ∈ traceOf (runNode getBB shared (.sequence cs) (some (.seqAt i r)) s),
        e.id ∉ idsOf (NodeSpec.sequence (cs.take i))) := by
  have h1 := runNode_seq_resume getBB shared i cs c rest hdrop r s
  have htr : ∀ e ∈ traceOf (runNode getBB shared (.sequence cs) (some (.seqAt i r)) s),
      e.id ∈ idsOf (NodeSpec.sequence (cs.drop i)) := by
    intro e he
    rw [h1, traceOf_liftSeqRes] at he
    rw [hdrop]
    rcases mem_traceOf_stepSeq he with h | ⟨s', h⟩
    · simp only [idsOf, List.mem_append]
      exact Or.inl (runNode_trace_ids getBB shared c (some r) s e h)
    · simp only [idsOf, List.mem_append]
      exact Or.inr (runNode_trace_ids getBB shared (.sequence rest) none s' e h)
  refine ⟨h1, ?_, htr, ?_⟩
  · intro o ho hsucc
    rw [h1, ho]
    congr 1
    simp [stepSeq, hsucc]
  · intro hdisj e he
    exact fun hmem => hdisj e.id hmem (htr e he)

/-- Concrete instance of C1: `Sequence [task 1, task 2]` with cursor at
child 1; the tick evaluates only task 2 (trace has no events of task 1),
succeeds, and goes idle. -/
theorem claim1_resume_at_cursor_witness :
    runNode noBB noShared (.sequence [scriptTask 1, scriptTask 2])
        (some (.seqAt 1 .taskR)) [Status.success] =
      .ok ⟨.success, none, [], [Ev.run 2, Ev.finish 2]⟩ := by
  have h := (claim1_resume_at_cursor noBB noShared [scriptTask 1, scriptTask 2] 1
    (scriptTask 2) [] .taskR [Status.success] (by simp)).1
  rw [h]
  simp [scriptTask, runNode, taskTick, stepSeq, liftSeqRes, shiftSeqBy, traceOf,
    cursorTask, seqState, shiftSeq]


section SeqFresh

variable {σ : Type} (getBB : σ → Option BB) (shared : String → Option BB)

/-- The children of a list all succeed in order within one tick, threading
the subject through and concatenating the hook traces. -/
inductive SeqSucceeds : σ → List (NodeSpec σ) → σ → List Ev → Prop where
  | nil (s : σ) : SeqSucceeds s [] s []
  | cons {s : σ} {c : NodeSpec σ} {cs : List (NodeSpec σ)} {o : Out σ} {s2 : σ}
      {tr : List Ev} (h : runNode getBB shared c none s = .ok o)
      (hst : o.st = .success) (ht : SeqSucceeds o.subj cs s2 tr) :
      SeqSucceeds s (c :: cs) s2 (o.tr ++ tr)

lemma seq_all_success {s : σ} {cs : List (NodeSpec σ)} {s2 : σ} {tr : List Ev}
    (h : SeqSucceeds getBB shared s cs s2 tr) :
    runNode getBB shared (.sequence cs) none s = .ok ⟨.success, none, s2, tr⟩ := by
  induction h with
  | nil s => simp [runNode]
  | cons hc hst ht ih =>
    simp only [runNode, seqState]
    rw [hc]
    simp only [stepSeq, hst]
    rw [ih]
    simp [shiftSeq]

lemma seq_fail_short {pre : List (NodeSpec σ)} {c : NodeSpec σ}
    (post : List (NodeSpec σ)) {s s1 : σ} {trp : List Ev} {o : Out σ}
    (hpre : SeqSucceeds getBB shared s pre s1 trp)
    (hc : runNode getBB shared c none s1 = .ok o) (hst : o.st = .fail) :
    runNode getBB shared (.sequence (pre ++ c :: post)) none s =
      .ok ⟨.fail, none, o.subj, trp ++ o.tr⟩ := by
  induction hpre with
  | nil s =>
    simp only [List.nil_append]
    simp only [runNode, seqState]
    rw [hc]
    simp [stepSeq, hst]
  | cons hc0 hst0 ht ih =>
    simp only [List.cons_append]
    simp only [runNode, seqState]
    rw [hc0]
    simp only [stepSeq, hst0]
    rw [ih hc]
    simp [shiftSeq, List.append_assoc]

lemma seq_running_cursor {pre : List (NodeSpec σ)} {c : NodeSpec σ}
    (post : List (NodeSpec σ)) {s s1 : σ} {trp : List Ev} {o : Out σ}
    (hpre : SeqSucceeds getBB shared s pre s1 trp)
    (hc : runNode getBB shared c none s1 = .ok o) (hst : o.st = .running) :
    runNode getBB shared (.sequence (pre ++ c :: post)) none s =
      .ok ⟨.running, some (.seqAt pre.length (o.rs.getD .taskR)), o.subj,
        trp ++ o.tr⟩ := by
  induction hpre with
  | nil s =>
    simp only [List.nil_append]
    simp only [runNode, seqState]
    rw [hc]
    simp [stepSeq, hst]
  | cons hc0 hst0 ht ih =>
    simp only [List.cons_append]
    simp only [runNode, seqState]
    rw [hc0]
    simp only [stepSeq, hst0]
    rw [ih hc]
    simp [shiftSeq, List.append_assoc, List.length_cons]

lemma seq_success_inv {cs : List (NodeSpec σ)} :
    ∀ {s : σ} {o : Out σ}, runNode getBB shared (.sequence cs) none s = .ok o →
      o.st = .success → SeqSucceeds getBB shared s cs o.subj o.tr ∧ o.rs = none := by
  induction cs with
  | nil =>
    intro s o h hst
    simp only [runNode] at h
    injection h with h
    subst h
    exact ⟨.nil s, rfl⟩
  | cons c rest ih =>
    intro s o h hst
    simp only [runNode, seqState] at h
    cases hc : runNode getBB shared c none s with
    | error e => rw [hc] at h; simp [stepSeq] at h
    | ok oc =>
      rw [hc] at h
      cases hoc : oc.st with
      | fail =>
        simp only [stepSeq, hoc] at h
        injection h with h
        rw [← h] at hst
        simp at hst
      | running =>
        simp only [stepSeq, hoc] at h
        injection h with h
        rw [← h] at hst
        simp at hst
      | success =>
        simp only [stepSeq, hoc] at h
        cases hcont : runNode getBB shared (.sequence rest) none oc.subj with
        | error e => rw [hcont] at h; simp at h
        | ok o2 =>
          rw [hcont] at h
          injection h with h
          obtain ⟨h2, hrs⟩ := ih hcont (by rw [← h] at hst; simpa using hst)
          constructor
          · rw [← h]
            simpa using SeqSucceeds.cons hc hoc h2
          · rw [← h]
            simp [hrs, shiftSeq]

end SeqFresh

/-- C4: fresh evaluation of a Sequence goes left-to-right: after a prefix of
successes, a child FAIL makes the Sequence FAIL immediately with the later
children untouched (the trace and subject come from the prefix and the
failing child alone); a child RUNNING suspends the cursor at that child's
index; the empty Sequence succeeds; and the Sequence returns SUCCESS exactly
when every child succeeded in order. -/
theorem claim4_sequence_semantics {σ : Type} (getBB : σ → Option BB)
    (shared : String → Option BB) :
    (∀ s : σ, runNode getBB shared (.sequence ([] : List (NodeSpec σ))) none s =
      .ok ⟨.success, none, s, []⟩) ∧
    (∀ (pre post : List (NodeSpec σ)) (c : NodeSpec σ) (s s1 : σ)
        (trp : List Ev) (o : Out σ),
      SeqSucceeds getBB shared s pre s1 trp →
      runNode getBB shared c none s1 = .ok o → o.st = .fail →
      runNode getBB shared (.sequence (pre ++ c :: post)) none s =
        .ok ⟨.fail, none, o.subj, trp ++ o.tr⟩) ∧
    (∀ (pre post : List (NodeSpec σ)) (c : NodeSpec σ) (s s1 : σ)
        (trp : List Ev) (o : Out σ),
      SeqSucceeds getBB shared s pre s1 trp →
      runNode getBB shared c none s1 = .ok o → o.st = .running →
      runNode getBB shared (.sequence (pre ++ c :: post)) none s =
        .ok ⟨.running, some (.seqAt pre.length (o.rs.getD .taskR)), o.subj,
          trp ++ o.tr⟩) ∧
    (∀ (cs : List (NodeSpec σ)) (s s2 : σ) (tr : List Ev),
      SeqSucceeds getBB shared s cs s2 tr →
      runNode getBB shared (.sequence cs) none s = .ok ⟨.success, none, s2, tr⟩) ∧
    (∀ (cs : List (NodeSpec σ)) (s : σ) (o : Out σ),
      runNode getBB shared (.sequence cs) none s = .ok o → o.st = .success →
      SeqSucceeds getBB shared s cs o.subj o.tr) := by
  refine ⟨fun s => by simp [runNode], ?_, ?_, ?_, ?_⟩
  · intro pre post c s s1 trp o hpre hc hst
    exact seq_fail_short getBB shared post hpre hc hst
  · intro pre post c s s1 trp o hpre hc hst
    exact seq_running_cursor getBB shared post hpre hc hst
  · intro cs s s2 tr h
    exact seq_all_success getBB shared h
  · intro cs s o h hst
    exact (seq_success_inv getBB shared h hst).1

/-- Concrete instance of C4: `Sequence [task 1 (SUCCESS), task 2 (FAIL),
task 3]` fails in one tick and task 3 is never evaluated. -/
theorem claim4_sequence_semantics_witness :
    runNode noBB noShared
        (.sequence [scriptTask 1, scriptTask 2, scriptTask 3]) none
        [Status.success, Status.fail] =
      .ok ⟨.fail, none, [],
        [Ev.start 1, Ev.run 1, Ev.finish 1, Ev.start 2, Ev.run 2, Ev.finish 2]⟩ := by
  have h := (claim4_sequence_semantics noBB noShared).2.1 [scriptTask 1] [scriptTask 3]
    (scriptTask 2) [Status.success, Status.fail] [Status.fail]
    [Ev.start 1, Ev.run 1, Ev.finish 1]
    ⟨.fail, none, [], [Ev.start 2, Ev.run 2, Ev.finish 2]⟩
    (by
      have : ([Ev.start 1, Ev.run 1, Ev.finish 1] : List Ev) =
          [Ev.start 1, Ev.run 1, Ev.finish 1] ++ [] := by simp
      rw [this]
      exact SeqSucceeds.cons (o := ⟨.success, none, [Status.fail],
          [Ev.start 1, Ev.run 1, Ev.finish 1]⟩)
        (by simp [runNode, scriptTask, cursorTask, taskTick]) rfl (.nil _))
    (by simp [runNode, scriptTask, cursorTask, taskTick]) rfl
  simpa using h


section SelFresh

variable {σ : Type} (getBB : σ → Option BB) (shared : String → Option BB)

/-- The children of a list all fail in order within one tick, threading the
subject through and concatenating the hook traces. -/
inductive SelFails : σ → List (NodeSpec σ) → σ → List Ev → Prop where
  | nil (s : σ) : SelFails s [] s []
  | cons {s : σ} {c : NodeSpec σ} {cs : List (NodeSpec σ)} {o : Out σ} {s2 : σ}
      {tr : List Ev} (h : runNode getBB shared c none s = .ok o)
      (hst : o.st = .fail) (ht : SelFails o.subj cs s2 tr) :
      SelFails s (c :: cs) s2 (o.tr ++ tr)

lemma sel_all_fail {s : σ} {cs : List (NodeSpec σ)} {s2 : σ} {tr : List Ev}
    (h : SelFails getBB shared s cs s2 tr) :
    runNode getBB shared (.selector cs) none s = .ok ⟨.fail, none, s2, tr⟩ := by
  induction h with
  | nil s => simp [runNode]
  | cons hc hst ht ih =>
    simp only [runNode, selState]
    rw [hc]
    simp only [stepSel, hst]
    rw [ih]
    simp [shiftSel]

lemma sel_success_short {pre : List (NodeSpec σ)} {c : NodeSpec σ}
    (post : List (NodeSpec σ)) {s s1 : σ} {trp : List Ev} {o : Out σ}
    (hpre : SelFails getBB shared s pre s1 trp)
    (hc : runNode getBB shared c none s1 = .ok o) (hst : o.st = .success) :
    runNode getBB shared (.selector (pre ++ c :: post)) none s =
      .ok ⟨.success, none, o.subj, trp ++ o.tr⟩ := by
  induction hpre with
  | nil s =>
    simp only [List.nil_append]
    simp only [runNode, selState]
    rw [hc]
    simp [stepSel, hst]
  | cons hc0 hst0 ht ih =>
    simp only [List.cons_append]
    simp only [runNode, selState]
    rw [hc0]
    simp only [stepSel, hst0]
    rw [ih hc]
    simp [shiftSel, List.append_assoc]

lemma sel_running_cursor {pre : List (NodeSpec σ)} {c : NodeSpec σ}
    (post : List (NodeSpec σ)) {s s1 : σ} {trp : List Ev} {o : Out σ}
    (hpre : SelFails getBB shared s pre s1 trp)
    (hc : runNode getBB shared c none s1 = .ok o) (hst : o.st = .running) :
    runNode getBB shared (.selector (pre ++ c :: post)) none s =
      .ok ⟨.running, some (.selAt pre.length (o.rs.getD .taskR)), o.subj,
        trp ++ o.tr⟩ := by
  induction hpre with
  | nil s =>
    simp only [List.nil_append]
    simp only [runNode, selState]
    rw [hc]
    simp [stepSel, hst]
  | cons hc0 hst0 ht ih =>
    simp only [List.cons_append]
    simp only [runNode, selState]
    rw [hc0]
    simp only [stepSel, hst0]
    rw [ih hc]
    simp [shiftSel, List.append_assoc, List.length_cons]

lemma sel_fail_inv {cs : List (NodeSpec σ)} :
    ∀ {s : σ} {o : Out σ}, runNode getBB shared (.selector cs) none s = .ok o →
      o.st = .fail → SelFails getBB shared s cs o.subj o.tr ∧ o.rs = none := by
  induction cs with
  | nil =>
    intro s o h hst
    simp only [runNode] at h
    injection h with h
    subst h
    exact ⟨.nil s, rfl⟩
  | cons c rest ih =>
    intro s o h hst
    simp only [runNode, selState] at h
    cases hc : runNode getBB shared c none s with
    | error e => rw [hc] at h; simp [stepSel] at h
    | ok oc =>
      rw [hc] at h
      cases hoc : oc.st with
      | success =>
        simp only [stepSel, hoc] at h
        injection h with h
        rw [← h] at hst
        simp at hst
      | running =>
        simp only [stepSel, hoc] at h
        injection h with h
        rw [← h] at hst
        simp at hst
      | fail =>
        simp only [stepSel, hoc] at h
        cases hcont : runNode getBB shared (.selector rest) none oc.subj with
        | error e => rw [hcont] at h; simp at h
        | ok o2 =>
          rw [hcont] at h
          injection h with h
          obtain ⟨h2, hrs⟩ := ih hcont (by rw [← h] at hst; simpa using hst)
          constructor
          · rw [← h]
            simpa using SelFails.cons hc hoc h2
          · rw [← h]
            simp [hrs, shiftSel]

end SelFresh

/-- C5: fresh evaluation of a Selector goes left-to-right: after a prefix of
failures, a child SUCCESS makes the Selector SUCCEED immediately with the
later children untouched (the trace and subject come from the prefix and the
succeeding child alone); a child RUNNING suspends the cursor at that child's
index; the empty Selector fails; and the Selector returns FAIL exactly when
every child failed in order. -/
theorem claim5_selector_semantics {σ : Type} (getBB : σ → Option BB)
    (shared : String → Option BB) :
    (∀ s : σ, runNode getBB shared (.selector ([] : List (NodeSpec σ))) none s =
      .ok ⟨.fail, none, s, []⟩) ∧
    (∀ (pre post : List (NodeSpec σ)) (c : NodeSpec σ) (s s1 : σ)
        (trp : List Ev) (o : Out σ),
      SelFails getBB shared s pre s1 trp →
      runNode getBB shared c none s1 = .ok o → o.st = .success →
      runNode getBB shared (.selector (pre ++ c :: post)) none s =
        .ok ⟨.success, none, o.subj, trp ++ o.tr⟩) ∧
    (∀ (pre post : List (NodeSpec σ)) (c : NodeSpec σ) (s s1 : σ)
        (trp : List Ev) (o : Out σ),
      SelFails getBB shared s pre s1 trp →
      runNode getBB shared c none s1 = .ok o → o.st = .running →
      runNode getBB shared (.selector (pre ++ c :: post)) none s =
        .ok ⟨.running, some (.selAt pre.length (o.rs.getD .taskR)), o.subj,
          trp ++ o.tr⟩) ∧
    (∀ (cs : List (NodeSpec σ)) (s s2 : σ) (tr : List Ev),
      SelFails getBB shared s cs s2 tr →
      runNode getBB shared (.selector cs) none s = .ok ⟨.fail, none, s2, tr⟩) ∧
    (∀ (cs : List (NodeSpec σ)) (s : σ) (o : Out σ),
      runNode getBB shared (.selector cs) none s = .ok o → o.st = .fail →
      SelFails getBB shared s cs o.subj o.tr) := by
  refine ⟨fun s => by simp [runNode], ?_, ?_, ?_, ?_⟩
  · intro pre post c s s1 trp o hpre hc hst
    exact sel_success_short getBB shared post hpre hc hst
  · intro pre post c s s1 trp o hpre hc hst
    exact sel_running_cursor getBB shared post hpre hc hst
  · intro cs s s2 tr h
    exact sel_all_fail getBB shared h
  · intro cs s o h hst
    exact (sel_fail_inv getBB shared h hst).1

/-- Concrete instance of C5: `Selector [task 1 (FAIL), task 2 (SUCCESS),
task 3]` succeeds in one tick and task 3 is never evaluated. -/
theorem claim5_selector_semantics_witness :
    runNode noBB noShared
        (.selector [scriptTask 1, scriptTask 2, scriptTask 3]) none
        [Status.fail, Status.success] =
      .ok ⟨.success, none, [],
        [Ev.start 1, Ev.run 1, Ev.finish 1, Ev.start 2, Ev.run 2, Ev.finish 2]⟩ := by
  have h := (claim5_selector_semantics noBB noShared).2.1 [scriptTask 1] [scriptTask 3]
    (scriptTask 2) [Status.fail, Status.success] [Status.success]
    [Ev.start 1, Ev.run 1, Ev.finish 1]
    ⟨.success, none, [], [Ev.start 2, Ev.run 2, Ev.finish 2]⟩
    (by
      have : ([Ev.start 1, Ev.run 1, Ev.finish 1] : List Ev) =
          [Ev.start 1, Ev.run 1, Ev.finish 1] ++ [] := by simp
      rw [this]
      exact SelFails.cons (o := ⟨.fail, none, [Status.success],
          [Ev.start 1, Ev.run 1, Ev.finish 1]⟩)
        (by simp [runNode, scriptTask, cursorTask, taskTick]) rfl (.nil _))
    (by simp [runNode, scriptTask, cursorTask, taskTick]) rfl
  simpa using h


/-- C2: one (fresh) tick of a While evaluates the condition and returns FAIL
if the condition fails (the action untouched — the trace is the condition's
alone); otherwise it evaluates the action once: RUNNING suspends the cursor
at the action, SUCCESS makes the While succeed in that single pass — the
trace is exactly one condition evaluation followed by one action evaluation,
with no further iteration inside the tick. -/
theorem claim2_while_semantics {σ : Type} (getBB : σ → Option BB)
    (shared : String → Option BB) (cond act : NodeSpec σ) (s : σ) :
    (∀ o : Out σ, runNode getBB shared cond none s = .ok o → o.st = .fail →
      runNode getBB shared (.whileN cond act) none s =
        .ok ⟨.fail, none, o.subj, o.tr⟩) ∧
    (∀ o oa : Out σ, runNode getBB shared cond none s = .ok o → o.st ≠ .fail →
      runNode getBB shared act none o.subj = .ok oa →
      (oa.st = .running →
        runNode getBB shared (.whileN cond act) none s =
          .ok ⟨.running, some (.whileAct (oa.rs.getD .taskR)), oa.subj,
            o.tr ++ oa.tr⟩) ∧
      (oa.st = .success →
        runNode getBB shared (.whileN cond act) none s =
          .ok ⟨.success, none, oa.subj, o.tr ++ oa.tr⟩)) := by
  constructor
  · intro o ho hf
    simp only [runNode, actState]
    rw [ho]
    simp [hf]
  · intro o oa ho hne hoa
    have key : runNode getBB shared (.whileN cond act) none s =
        stepAct o.tr (runNode getBB shared act none o.subj) := by
      simp only [runNode, actState]
      rw [ho]
      cases ho' : o.st with
      | fail => exact absurd ho' hne
      | success => simp [ho']
      | running => simp [ho']
    constructor <;> intro hst <;> rw [key, hoa] <;> simp [stepAct, hst]

/-- Concrete instance of C2: `While(cond = task 1, action = task 2)` with
both returning SUCCESS: the While succeeds in a single pass, evaluating the
condition once and the action once. -/
theorem claim2_while_semantics_witness :
    runNode noBB noShared (.whileN (scriptTask 1) (scriptTask 2)) none
        [Status.success, Status.success] =
      .ok ⟨.success, none, [],
        [Ev.start 1, Ev.run 1, Ev.finish 1, Ev.start 2, Ev.run 2, Ev.finish 2]⟩ := by
  have h := ((claim2_while_semantics noBB noShared (scriptTask 1) (scriptTask 2)
      [Status.success, Status.success]).2
    ⟨.success, none, [Status.success], [Ev.start 1, Ev.run 1, Ev.finish 1]⟩
    ⟨.success, none, [], [Ev.start 2, Ev.run 2, Ev.finish 2]⟩
    (by simp [runNode, scriptTask, cursorTask, taskTick]) (by simp)
    (by simp [runNode, scriptTask, cursorTask, taskTick])).2 rfl
  simpa using h

/-- C3: Repeat semantics — an absent count and a negative count both mean
repeat indefinitely (the node behaves identically); with `breakonfail` false
a child FAIL does not consume a count slot (the remaining budget is kept and
the same iteration is re-attempted next tick); with `breakonfail` true a
child FAIL fails the Repeat immediately; a child RUNNING suspends the Repeat,
which resumes that same iteration (same remaining budget, same child
fragment) next tick; and the budget is decremented exactly on child SUCCESS,
the Repeat succeeding when the last slot is consumed. -/
theorem claim3_repeat_semantics {σ : Type} (getBB : σ → Option BB)
    (shared : String → Option BB) (c : NodeSpec σ) :
    (∀ (k : Int), k < 0 → ∀ (bof : Bool) (st : Option RS) (s : σ),
      runNode getBB shared (.repeatN (some k) bof c) st s =
        runNode getBB shared (.repeatN none bof c) st s) ∧
    (∀ (count : Option Int) (s : σ) (o : Out σ),
      runNode getBB shared c none s = .ok o → o.st = .fail →
      initRem count ≠ some 0 →
      runNode getBB shared (.repeatN count false c) none s =
        .ok ⟨.running, some (.rep (initRem count) none), o.subj, o.tr⟩) ∧
    (∀ (count : Option Int) (s : σ) (o : Out σ),
      runNode getBB shared c none s = .ok o → o.st = .fail →
      initRem count ≠ some 0 →
      runNode getBB shared (.repeatN count true c) none s =
        .ok ⟨.fail, none, o.subj, o.tr⟩) ∧
    (∀ (count : Option Int) (bof : Bool) (s : σ) (o : Out σ),
      runNode getBB shared c none s = .ok o → o.st = .running →
      initRem count ≠ some 0 →
      runNode getBB shared (.repeatN count bof c) none s =
        .ok ⟨.running, some (.rep (initRem count) (some (o.rs.getD .taskR))),
          o.subj, o.tr⟩) ∧
    (∀ (count : Option Int) (bof : Bool) (rem : Option Nat) (cst : Option RS)
        (s : σ), rem ≠ some 0 →
      runNode getBB shared (.repeatN count bof c) (some (.rep rem cst)) s =
        stepRep bof rem (runNode getBB shared c cst s)) ∧
    (∀ (count : Option Int) (bof : Bool) (k : Nat) (cst : Option RS) (s : σ)
        (o : Out σ),
      runNode getBB shared c cst s = .ok o → o.st = .success →
      ((k = 0 →
        runNode getBB shared (.repeatN count bof c)
            (some (.rep (some (k + 1)) cst)) s =
          .ok ⟨.success, none, o.subj, o.tr⟩) ∧
       (k ≠ 0 →
        runNode getBB shared (.repeatN count bof c)
            (some (.rep (some (k + 1)) cst)) s =
          .ok ⟨.running, some (.rep (some k) none), o.subj, o.tr⟩))) := by
  refine ⟨?_, ?_, ?_, ?_, ?_, ?_⟩
  · intro k hk bof st s
    have hinit : initRem (some k) = initRem none := by
      simp [initRem, hk]
    cases hrs : repState st with
    | some p => simp only [runNode, hrs]
    | none => simp only [runNode, hrs, hinit]
  · intro count s o ho hst hne
    simp only [runNode, repState, if_neg hne]
    rw [ho]
    simp [stepRep, hst]
  · intro count s o ho hst hne
    simp only [runNode, repState, if_neg hne]
    rw [ho]
    simp [stepRep, hst]
  · intro count bof s o ho hst hne
    simp only [runNode, repState, if_neg hne]
    rw [ho]
    simp [stepRep, hst]
  · intro count bof rem cst s hne
    simp only [runNode, repState, if_neg hne]
  · intro count bof k cst s o ho hst
    have hne : (some (k + 1) : Option Nat) ≠ some 0 := by simp
    constructor <;> intro hk
    · simp only [runNode, repState, if_neg hne]
      rw [ho]
      simp [stepRep, hst, hk]
    · simp only [runNode, repState, if_neg hne]
      rw [ho]
      simp [stepRep, hst, hk]

/-- Concrete instance of C3: `Repeat(count=3, breakonfail=false)` over a
child producing FAIL, SUCCESS, SUCCESS, SUCCESS across four ticks: the FAIL
does not consume a count slot, the budget decrements only on SUCCESS, and
the Repeat succeeds on the fourth tick (three successful iterations, four
child evaluations). -/
theorem claim3_repeat_semantics_witness :
    (runNode noBB noShared (.repeatN (some 3) false (scriptTask 7)) none
        [Status.fail, Status.success, Status.success, Status.success] =
      .ok ⟨.running, some (.rep (some 3) none),
        [Status.success, Status.success, Status.success],
        [Ev.start 7, Ev.run 7, Ev.finish 7]⟩) ∧
    (runNode noBB noShared (.repeatN (some 3) false (scriptTask 7))
        (some (.rep (some 3) none))
        [Status.success, Status.success, Status.success] =
      .ok ⟨.running, some (.rep (some 2) none), [Status.success, Status.success],
        [Ev.start 7, Ev.run 7, Ev.finish 7]⟩) ∧
    (runNode noBB noShared (.repeatN (some 3) false (scriptTask 7))
        (some (.rep (some 2) none)) [Status.success, Status.success] =
      .ok ⟨.running, some (.rep (some 1) none), [Status.success],
        [Ev.start 7, Ev.run 7, Ev.finish 7]⟩) ∧
    (runNode noBB noShared (.repeatN (some 3) false (scriptTask 7))
        (some (.rep (some 1) none)) [Status.success] =
      .ok ⟨.success, none, [], [Ev.start 7, Ev.run 7, Ev.finish 7]⟩) := by
  have hth := claim3_repeat_semantics noBB noShared (scriptTask 7)
  refine ⟨?_, ?_, ?_, ?_⟩
  · have h := hth.2.1 (some 3)
      [Status.fail, Status.success, Status.success, Status.success]
      ⟨.fail, none, [Status.success, Status.success, Status.success],
        [Ev.start 7, Ev.run 7, Ev.finish 7]⟩
      (by simp [runNode, scriptTask, cursorTask, taskTick]) rfl
      (by simp [initRem])
    simpa [initRem] using h
  · have h := (hth.2.2.2.2.2 (some 3) false 2 none
      [Status.success, Status.success, Status.success]
      ⟨.success, none, [Status.success, Status.success],
        [Ev.start 7, Ev.run 7, Ev.finish 7]⟩
      (by simp [runNode, scriptTask, cursorTask, taskTick]) rfl).2 (by simp)
    simpa using h
  · have h := (hth.2.2.2.2.2 (some 3) false 1 none [Status.success, Status.success]
      ⟨.success, none, [Status.success], [Ev.start 7, Ev.run 7, Ev.finish 7]⟩
      (by simp [runNode, scriptTask, cursorTask, taskTick]) rfl).2 (by simp)
    simpa using h
  · have h := (hth.2.2.2.2.2 (some 3) false 0 none [Status.success]
      ⟨.success, none, [], [Ev.start 7, Ev.run 7, Ev.finish 7]⟩
      (by simp [runNode, scriptTask, cursorTask, taskTick]) rfl).1 rfl
    simpa using h


lemma status_terminal (x : Status) (h : x ≠ .running) :
    x = .success ∨ x = .fail := by
  cases x <;> simp at h ⊢

/-- C6: a BlackboardQuery resolves its board, reads the stored value at
`key`, and returns SUCCESS or FAIL — never RUNNING — according to the
`value` parameter: `"set"` succeeds iff the key is present, `"unset"` iff
it is absent (through the resolver this holds for the `"Entity"` board and
for a registered shared board alike), `"true"`/`"false"` iff the
boolean-coerced stored value matches, and any other literal iff it is
strictly equal to the stored value. -/
theorem claim6_blackboard_query {σ : Type} (getBB : σ → Option BB)
    (shared : String → Option BB) (board key : String) (v : VP)
    (st : Option RS) (s : σ) :
    (∀ bb : BB, resolve getBB shared s board = .ok bb →
      runNode getBB shared (.query board key v) st s =
        .ok ⟨queryStatus bb key v, none, s, []⟩ ∧
      (queryStatus bb key v = .success ∨ queryStatus bb key v = .fail)) ∧
    (∀ bb : BB,
      (queryStatus bb key .set = .success ↔ (bb key).isSome) ∧
      (queryStatus bb key .unset = .success ↔ bb key = none) ∧
      (queryStatus bb key .vtrue = .success ↔ truthy (bb key) = true) ∧
      (queryStatus bb key .vfalse = .success ↔ truthy (bb key) = false) ∧
      (∀ x : Val, queryStatus bb key (.lit x) = .success ↔ bb key = some x)) ∧
    (∀ bb : BB, getBB s = some bb → resolve getBB shared s "Entity" = .ok bb) ∧
    (∀ bb : BB, board ≠ "Entity" → shared board = some bb →
      resolve getBB shared s board = .ok bb) := by
  refine ⟨?_, ?_, ?_, ?_⟩
  · intro bb hres
    constructor
    · simp only [runNode]
      rw [hres]
    · refine status_terminal _ ?_
      simp only [queryStatus]
      split <;> simp
  · intro bb
    refine ⟨?_, ?_, ?_, ?_, ?_⟩
    · simp only [queryStatus]
      split <;> rename_i h <;> simp_all
    · simp only [queryStatus]
      split <;> rename_i h <;> simp_all [Option.isNone_iff_eq_none]
    · simp only [queryStatus]
      split <;> rename_i h <;> simp_all
    · simp only [queryStatus]
      split <;> rename_i h <;> simp_all
    · intro x
      simp only [queryStatus]
      split <;> rename_i h <;> simp_all
  · intro bb h
    simp [resolve, h]
  · intro bb hb h
    simp [resolve, hb, h]

/-- Concrete instance of C6: a query with `value="unset"` against a
registered shared board succeeds iff the key is absent. -/
theorem claim6_blackboard_query_witness :
    runNode (noBB) (fun b => if b = "shared1" then some (fun _ => none) else none)
        (.query "shared1" "k" .unset) none [] =
      .ok ⟨.success, none, [], []⟩ := by
  have h := ((claim6_blackboard_query noBB
      (fun b => if b = "shared1" then some (fun _ => none) else none)
      "shared1" "k" .unset none []).1 (fun _ => none)
    (by simp [resolve])).1
  rw [h]
  simp [queryStatus]

/-- C7: blackboard resolution with selector `"Entity"` returns the subject's
own blackboard and fails with `MissingBlackboardError` when it is absent;
any other selector is looked up in the shared registry and fails with
`UnknownBoardError` when unregistered; such an error raised by a
BlackboardQuery is not caught but surfaces from the node evaluation to the
caller of `run`, and the failed tick leaves the TreeInstance — its cursor
included — unchanged. -/
theorem claim7_blackboard_error_propagation {σ : Type} (getBB : σ → Option BB)
    (shared : String → Option BB) :
    (∀ s : σ, getBB s = none →
      resolve getBB shared s "Entity" = .error .missingBlackboard) ∧
    (∀ (s : σ) (board : String), board ≠ "Entity" → shared board = none →
      resolve getBB shared s board = .error .unknownBoard) ∧
    (∀ (board key : String) (v : VP) (st : Option RS) (s : σ) (e : Err),
      resolve getBB shared s board = .error e →
      runNode getBB shared (.query board key v) st s = .error e) ∧
    (∀ (t : Inst σ) (obj : σ) (e : Err),
      (Inst.runI getBB shared t obj).1 = .error e →
      (Inst.runI getBB shared t obj).2 = t) := by
  refine ⟨?_, ?_, ?_, ?_⟩
  · intro s h
    simp [resolve, h]
  · intro s board hb h
    simp [resolve, hb, h]
  · intro board key v st s e hres
    simp only [runNode]
    rw [hres]
  · intro t obj e h
    unfold Inst.runI at h ⊢
    cases hr : runNode getBB shared t.tree t.cursor obj with
    | error e2 => simp [hr]
    | ok o => rw [hr] at h; simp at h

/-- Concrete instance of C7: an entity query with no blackboard and a query
against an unregistered shared board both error, and the erroring tick
leaves the instance (cursor included) unchanged. -/
theorem claim7_blackboard_error_propagation_witness :
    (resolve noBB noShared ([] : List Status) "Entity" =
      .error .missingBlackboard) ∧
    (resolve noBB noShared ([] : List Status) "shared1" =
      .error .unknownBoard) ∧
    ((Inst.runI noBB noShared
        ⟨.query "shared1" "k" .set, some .whileFresh, none⟩ []).2 =
      ⟨.query "shared1" "k" .set, some .whileFresh, none⟩) := by
  have hth := claim7_blackboard_error_propagation (σ := List Status) noBB noShared
  refine ⟨hth.1 [] rfl, hth.2.1 [] "shared1" (by decide) rfl, ?_⟩
  refine hth.2.2.2 _ [] .unknownBoard ?_
  have hq := hth.2.2.1 "shared1" "k" .set (some .whileFresh) []
    .unknownBoard (hth.2.1 [] "shared1" (by decide) rfl)
  simp [Inst.runI, hq]


/-- C8: when the cursor addresses a suspended Task, `abort` invokes exactly
that Task's finish hook, exactly once (the hook trace is the single event
`finish i`), resets the cursor to idle, and touches no other node's hooks;
when the cursor is idle `abort` is a no-op — so a second consecutive abort
changes nothing. -/
theorem claim8_abort_semantics {σ : Type} :
    (∀ (t : Inst σ) (rs : RS) (i : Nat) (fin : σ → Status → σ),
      t.cursor = some rs → activeTask t.tree rs = some (i, fin) →
      Inst.abortI t =
        (⟨t.tree, none, t.subject.map (fun s => fin s .fail)⟩, [Ev.finish i])) ∧
    (∀ t : Inst σ, t.cursor = none → Inst.abortI t = (t, [])) ∧
    (∀ t : Inst σ, Inst.abortI ((Inst.abortI t).1) = ((Inst.abortI t).1, [])) := by
  refine ⟨?_, ?_, ?_⟩
  · intro t rs i fin hc ha
    simp [Inst.abortI, hc, ha]
  · intro t hc
    simp [Inst.abortI, hc]
  · intro t
    cases hc : t.cursor with
    | none => simp [Inst.abortI, hc]
    | some rs =>
      cases ha : activeTask t.tree rs with
      | none => simp [Inst.abortI, hc, ha]
      | some p => simp [Inst.abortI, hc, ha]

/-- Concrete instance of C8: aborting a tree whose cursor addresses the
suspended task 5 fires exactly `finish 5` and goes idle; aborting again is
a no-op. -/
theorem claim8_abort_semantics_witness :
    (Inst.abortI ⟨scriptTask 5, some .taskR, some []⟩ =
      (⟨scriptTask 5, none, some []⟩, [Ev.finish 5])) ∧
    (Inst.abortI (⟨scriptTask 5, none, some []⟩ : Inst (List Status)) =
      (⟨scriptTask 5, none, some []⟩, [])) := by
  constructor
  · have h := claim8_abort_semantics.1 ⟨scriptTask 5, some .taskR, some []⟩
      .taskR 5 (fun s _ => s) rfl (by simp [activeTask, scriptTask])
    simpa using h
  · exact claim8_abort_semantics.2.1 ⟨scriptTask 5, none, some []⟩ rfl

/-- Interleaved execution of an original instance and its clone: each step
runs one of the two, leaving the other untouched. -/
def runBoth {σ : Type} (getBB : σ → Option BB) (shared : String → Option BB)
    (p : Inst σ × Inst σ) (m : Bool × σ) : Inst σ × Inst σ :=
  if m.1 then ((Inst.runI getBB shared p.1 m.2).2, p.2)
  else (p.1, (Inst.runI getBB shared p.2 m.2).2)

/-- Run an instance through a list of subjects, one tick each. -/
def runMany {σ : Type} (getBB : σ → Option BB) (shared : String → Option BB)
    (t : Inst σ) (objs : List σ) : Inst σ :=
  objs.foldl (fun a o => (Inst.runI getBB shared a o).2) t

lemma runBoth_proj {σ : Type} (getBB : σ → Option BB)
    (shared : String → Option BB) :
    ∀ (script : List (Bool × σ)) (p : Inst σ × Inst σ),
      (script.foldl (runBoth getBB shared) p).1 =
        runMany getBB shared p.1
          ((script.filter (fun m => m.1)).map (fun m => m.2)) ∧
      (script.foldl (runBoth getBB shared) p).2 =
        runMany getBB shared p.2
          ((script.filter (fun m => !m.1)).map (fun m => m.2)) := by
  intro script
  induction script with
  | nil => intro p; exact ⟨rfl, rfl⟩
  | cons m rest ih =>
    intro p
    cases hb : m.1 with
    | true =>
      have := ih ((Inst.runI getBB shared p.1 m.2).2, p.2)
      simpa [runBoth, runMany, hb] using this
    | false =>
      have := ih (p.1, (Inst.runI getBB shared p.2 m.2).2)
      simpa [runBoth, runMany, hb] using this

/-- C9: `clone` shares the immutable compiled tree but gets a fresh idle
cursor and subject; a tick never changes the tree; and for every
interleaving of `run` calls on original and clone, each instance's final
state equals what its own runs alone produce — neither instance's runs
mutate the other's cursor or subject. -/
theorem claim9_clone_independence {σ : Type} (getBB : σ → Option BB)
    (shared : String → Option BB) (t : Inst σ) :
    ((Inst.cloneI t).tree = t.tree ∧ (Inst.cloneI t).cursor = none ∧
      (Inst.cloneI t).subject = none) ∧
    (∀ (u : Inst σ) (obj : σ), ((Inst.runI getBB shared u obj).2).tree = u.tree) ∧
    (∀ script : List (Bool × σ),
      (script.foldl (runBoth getBB shared) (t, Inst.cloneI t)).1 =
        runMany getBB shared t
          ((script.filter (fun m => m.1)).map (fun m => m.2)) ∧
      (script.foldl (runBoth getBB shared) (t, Inst.cloneI t)).2 =
        runMany getBB shared (Inst.cloneI t)
          ((script.filter (fun m => !m.1)).map (fun m => m.2))) := by
  refine ⟨⟨rfl, rfl, rfl⟩, ?_, ?_⟩
  · intro u obj
    unfold Inst.runI
    cases hr : runNode getBB shared u.tree u.cursor obj <;> simp
  · intro script
    exact runBoth_proj getBB shared script (t, Inst.cloneI t)

/-- C10: the status constants of types.d.ts are the pairwise-distinct
numbers SUCCESS = 1, FAIL = 2, RUNNING = 3, and every defined (non-error)
status `run` produces carries one of exactly these three codes. -/
theorem claim10_status_codes :
    (SUCCESS = 1 ∧ FAIL = 2 ∧ RUNNING = 3) ∧
    (SUCCESS ≠ FAIL ∧ SUCCESS ≠ RUNNING ∧ FAIL ≠ RUNNING) ∧
    (∀ (σ : Type) (getBB : σ → Option BB) (shared : String → Option BB)
        (t : Inst σ) (obj : σ) (st : Status) (tr : List Ev),
      (Inst.runI getBB shared t obj).1 = .ok (st, tr) →
      st.code = SUCCESS ∨ st.code = FAIL ∨ st.code = RUNNING) := by
  refine ⟨⟨rfl, rfl, rfl⟩, ⟨by decide, by decide, by decide⟩, ?_⟩
  intro σ getBB shared t obj st tr _
  cases st <;> simp [Status.code]

/-- Concrete instance of C10: a one-task tree returns SUCCESS, whose code
is one of the three declared constants. -/
theorem claim10_status_codes_witness :
    ((Inst.runI noBB noShared ⟨scriptTask 1, none, none⟩ [Status.success]).1 =
      .ok (.success, [Ev.start 1, Ev.run 1, Ev.finish 1])) ∧
    (Status.success.code = SUCCESS ∨ Status.success.code = FAIL ∨
      Status.success.code = RUNNING) := by
  have hrun : (Inst.runI noBB noShared ⟨scriptTask 1, none, none⟩
      [Status.success]).1 = .ok (.success, [Ev.start 1, Ev.run 1, Ev.finish 1]) := by
    simp [Inst.runI, runNode, scriptTask, cursorTask, taskTick]
  exact ⟨hrun, claim10_status_codes.2.2 (List Status) noBB noShared
    ⟨scriptTask 1, none, none⟩ [Status.success] .success
    [Ev.start 1, Ev.run 1, Ev.finish 1] hrun⟩

end BTree5
